import Mathlib

/-!
Verification of the org-markup core of `impertio-rs`.

The development shallowly embeds the three stages of the pipeline:

* `src/org/lex.rs`   — the lexer (`Lexer::lex`, `Lexer::handle_line`,
  `Lexer::handle_normal`, `Lexer::construct_block`, `Lexer::lstrip_equally`);
* `src/org/mod.rs`   — the document assembler (`Document::parse`,
  `Document::add_to_last`);
* `src/org/html.rs`  — the HTML renderer (`HtmlBuilder::from_document`).

Rust strings are embedded as Lean `String` (a wrapper around `List Char`);
all string primitives used by the source (`trim`, `split`, `starts_with`,
`join`, `to_ascii_lowercase`, `replace`) are defined here over the character
list, with the Rust operation named in a comment.  Byte indexing in the
source coincides with character indexing on ASCII input, which is the only
divergence of the embedding.  Fallible code returns `RunResult`, whose
`panic` constructor records a Rust panic (`panic!`, `todo!`, `unwrap`).

The regexes of `lex.rs` are embedded in two ways.  `HEADING_REGEX`, the only
unanchored pattern and the only one needing backtracking, is transcribed
into a small regex AST (`RE`) interpreted by a backtracking matcher with
PCRE semantics (prioritized alternation, greedy/lazy repetition, negative
lookahead, leftmost search).  The remaining patterns are anchored and
deterministic (every quantified class is disjoint from the character that
follows it, or the sole backtracking case is resolved explicitly), and are
embedded as direct parsing functions, each annotated with its pattern.
-/

namespace Impertio

/-! ## Character classes -/

/-- Regex `\s` and Rust `char::is_whitespace`, restricted to ASCII. -/
def isWs (c : Char) : Bool :=
  c = ' ' || c = '\t' || c = '\n' || c = '\r' || c = '\x0b' || c = '\x0c'

/-- Regex `[A-Z]`. -/
def isUpperAZ (c : Char) : Bool := 'A' ≤ c && c ≤ 'Z'

/-- Regex `[a-zA-Z]`. -/
def isAlphaAZ (c : Char) : Bool := ('a' ≤ c && c ≤ 'z') || ('A' ≤ c && c ≤ 'Z')

/-- Regex `[a-zA-Z0-9]`. -/
def isAlnumAscii (c : Char) : Bool := isAlphaAZ c || ('0' ≤ c && c ≤ '9')

/-- Regex `\w`, restricted to ASCII: `[A-Za-z0-9_]`. -/
def isWordChar (c : Char) : Bool := isAlnumAscii c || c = '_'

/-- Character class of `DRAWER_REGEX` names: `[\w_-]`. -/
def isDrawerChar (c : Char) : Bool := isWordChar c || c = '-'

/-- Character class of heading tags: `[a-zA-Z0-9_@#%]`. -/
def isTagChar (c : Char) : Bool := isAlnumAscii c || c = '_' || c = '@' || c = '#' || c = '%'

/-- Character class of `KEYWORD` names: `[a-zA-Z_]`. -/
def isKeywordChar (c : Char) : Bool := isAlphaAZ c || c = '_'

/-- Regex `\d`. -/
def isDigitCh (c : Char) : Bool := '0' ≤ c && c ≤ '9'

/-- Character class `[\d.]` of the completion marker. -/
def isDigitDot (c : Char) : Bool := isDigitCh c || c = '.'

/-- Regex `.` (anything but a newline). -/
def notNl (c : Char) : Bool := c ≠ '\n'

/-- Rust `char::to_ascii_lowercase`. -/
def lowerAscii (c : Char) : Char :=
  if 'A' ≤ c && c ≤ 'Z' then Char.ofNat (c.toNat + 32) else c

/-! ## Rust string primitives over `List Char` -/

/-- Length of the maximal leading run satisfying `p`. -/
def countWhile (p : Char → Bool) : List Char → Nat
  | [] => 0
  | c :: rest => if p c then countWhile p rest + 1 else 0

/-- Rust `str::split(sep)` for a one-character separator: empty pieces kept. -/
def splitChar (sep : Char) : List Char → List (List Char)
  | [] => [[]]
  | c :: rest =>
    if c = sep then [] :: splitChar sep rest
    else
      match splitChar sep rest with
      | [] => [[c]]
      | r :: rs => (c :: r) :: rs

/-- Does the list start with the given characters (Rust `str::starts_with`)? -/
def listStarts : List Char → List Char → Bool
  | _, [] => true
  | [], _ :: _ => false
  | c :: cs, p :: ps => c = p && listStarts cs ps

/-- Case-insensitive literal: returns the remainder after the pattern. -/
def ciStarts : List Char → List Char → Option (List Char)
  | [], s => some s
  | _ :: _, [] => none
  | p :: ps, c :: cs => if lowerAscii c = lowerAscii p then ciStarts ps cs else none

/-- Rust `str::trim_start`. -/
def rsTrimLeft (s : String) : String := String.mk (s.data.dropWhile isWs)

/-- Rust `str::trim_end`. -/
def rsTrimRight (s : String) : String :=
  String.mk ((s.data.reverse.dropWhile isWs).reverse)

/-- Rust `str::trim`. -/
def rsTrim (s : String) : String := rsTrimRight (rsTrimLeft s)

/-- Rust `str::to_ascii_lowercase`. -/
def rsLower (s : String) : String := String.mk (s.data.map lowerAscii)

/-- Rust `str::starts_with`. -/
def rsStarts (s pat : String) : Bool := listStarts s.data pat.data

/-- Rust `str::split` on a one-character pattern, at `String` level. -/
def sSplitChar (sep : Char) (s : String) : List String :=
  (splitChar sep s.data).map String.mk

/-- Rust `[String]::join("\n")`. -/
def sJoinNl : List String → String
  | [] => ""
  | [x] => x
  | x :: rest => x ++ "\n" ++ sJoinNl rest

/-- Rust `str::replace("\n", "<br />")`. -/
def sReplaceNlBr (s : String) : String :=
  String.mk (s.data.flatMap (fun c => if c = '\n' then "<br />".data else [c]))

/-! ## A backtracking regex engine (for `HEADING_REGEX`)

`reRun` interprets a regex AST with PCRE backtracking semantics in
continuation-passing style: `alt` tries its left branch first, `starG` is
greedy, `starL` lazy, `nla` a negative lookahead, `grp` records a capture
span, `eol` is `$`.  The `fuel` argument only bounds the recursion depth
(every theorem below either evaluates the matcher on a concrete string or
takes its outcome as a hypothesis, so the bound is never load-bearing). -/

/-- Capture list: (group id, start, end), most recent first. -/
abbrev Caps := List (Nat × Nat × Nat)

inductive RE where
  | eps : RE
  | cls : (Char → Bool) → RE
  | cat : RE → RE → RE
  | alt : RE → RE → RE
  | starG : RE → RE
  | starL : RE → RE
  | grp : Nat → RE → RE
  | nla : RE → RE
  | eol : RE

def reRun : Nat → RE → List Char → Nat → Caps → (Nat → Caps → Option Caps) → Option Caps
  | 0, _, _, _, _, _ => none
  | fuel + 1, re, s, pos, caps, k =>
    match re with
    | .eps => k pos caps
    | .eol => if pos = s.length then k pos caps else none
    | .cls p =>
      match s.get? pos with
      | some c => if p c then k (pos + 1) caps else none
      | none => none
    | .cat a b => reRun fuel a s pos caps (fun pos2 caps2 => reRun fuel b s pos2 caps2 k)
    | .alt a b =>
      match reRun fuel a s pos caps k with
      | some r => some r
      | none => reRun fuel b s pos caps k
    | .starG a =>
      match reRun fuel a s pos caps (fun pos2 caps2 =>
          if pos2 = pos then none else reRun fuel (.starG a) s pos2 caps2 k) with
      | some r => some r
      | none => k pos caps
    | .starL a =>
      match k pos caps with
      | some r => some r
      | none => reRun fuel a s pos caps (fun pos2 caps2 =>
          if pos2 = pos then none else reRun fuel (.starL a) s pos2 caps2 k)
    | .grp i a => reRun fuel a s pos caps (fun pos2 caps2 => k pos2 ((i, pos, pos2) :: caps2))
    | .nla a =>
      match reRun fuel a s pos caps (fun _ _ => some []) with
      | some _ => none
      | none => k pos caps

def reFuel : Nat := 1000000

/-- Unanchored leftmost-first search (fancy-regex `Regex::captures`): try
successive start positions; the first argument counts the positions still
to be tried. -/
def reSearchFrom : Nat → RE → List Char → Nat → Option Caps
  | 0, _, _, _ => none
  | n + 1, re, s, start =>
    match reRun reFuel re s start [] (fun _ caps => some caps) with
    | some caps => some caps
    | none => reSearchFrom n re s (start + 1)

def reSearch (re : RE) (s : List Char) : Option Caps :=
  reSearchFrom (s.length + 1) re s 0

/-- The text of capture group `i`. -/
def capSub (s : List Char) (caps : Caps) (i : Nat) : Option String :=
  (caps.find? (fun e => e.1 = i)).map (fun e => String.mk ((s.drop e.2.1).take (e.2.2 - e.2.1)))

def reLit (c : Char) : RE := .cls (fun x => x = c)

def reStr (s : String) : RE := s.data.foldr (fun c r => .cat (reLit c) r) .eps

def plusG (a : RE) : RE := .cat a (.starG a)

def plusL (a : RE) : RE := .cat a (.starL a)

def reOpt (a : RE) : RE := .alt a .eps

/-! ## `HEADING_REGEX`

```
(?<stars>\*+)\s+(?<todo_state>(?:(?!COMMENT)[A-Z]{2,})\s+)?
(?<priority>#\[[a-zA-Z0-9]\]\s+)?(?<title>[^\n]+?)
(?<tags>\s+\:([a-zA-Z0-9_@#%]+\:)+)?
(?:\s+\[(?<completion_amount>(?:\d+\/\d+)|(?:[\d.]+%))\])?$
```

Group ids: 1 = stars, 2 = todo_state, 3 = priority, 4 = title, 5 = tags,
6 = completion_amount.  (The inner `([a-zA-Z0-9_@#%]+\:)` group is not read
by the source, so it is left uncaptured here.) -/

def headingRE : RE :=
  .cat (.grp 1 (plusG (reLit '*')))
  (.cat (plusG (.cls isWs))
  (.cat (reOpt (.grp 2 (.cat (.cat (.nla (reStr "COMMENT")) (.cat (.cls isUpperAZ) (plusG (.cls isUpperAZ)))) (plusG (.cls isWs)))))
  (.cat (reOpt (.grp 3 (.cat (reLit '#') (.cat (reLit '[') (.cat (.cls isAlnumAscii) (.cat (reLit ']') (plusG (.cls isWs))))))))
  (.cat (.grp 4 (plusL (.cls notNl)))
  (.cat (reOpt (.grp 5 (.cat (plusG (.cls isWs)) (.cat (reLit ':') (plusG (.cat (plusG (.cls isTagChar)) (reLit ':')))))))
  (.cat (reOpt (.cat (plusG (.cls isWs)) (.cat (reLit '[')
        (.cat (.grp 6 (.alt (.cat (plusG (.cls isDigitCh)) (.cat (reLit '/') (plusG (.cls isDigitCh))))
                            (.cat (plusG (.cls isDigitDot)) (reLit '%'))))
        (reLit ']')))))
  .eol))))))

/-- The pieces of a heading match, as read off by `Lexer::handle_normal`:
`stars` is `caps["stars"].len()`; `todoState`, `priority`, `tagsRaw` and
`completion` are passed through `match_to_str` (i.e. trimmed); `title` is
the raw `caps["title"]`. -/
structure HeadingInfo where
  stars : Nat
  todoState : Option String
  priority : Option String
  title : String
  tagsRaw : Option String
  completion : Option String
deriving DecidableEq, Repr

def headingMatch (l : String) : Option HeadingInfo :=
  (reSearch headingRE l.data).map (fun caps =>
    { stars := ((capSub l.data caps 1).getD "").length
      todoState := (capSub l.data caps 2).map rsTrim
      priority := (capSub l.data caps 3).map rsTrim
      title := (capSub l.data caps 4).getD ""
      tagsRaw := (capSub l.data caps 5).map rsTrim
      completion := (capSub l.data caps 6).map rsTrim })

/-! ## The anchored regexes, as deterministic parsers

Each function is the exact matching semantics of its pattern on a line
(lines produced by splitting on `'\n'` contain no newline).  Where the
pattern admits backtracking, the resolved form is noted. -/

/-- The `PLANNING_REGEX`: `^\s+(?<type>\w+):\s*(?<value>[^\n]+)`.
`\s*` is greedy but must leave one character for `[^\n]+`, hence the
`min k (rest.length - 1)`. -/
def planningMatch (l : String) : Option (String × String) :=
  let s := l.data
  let n1 := countWhile isWs s
  if n1 = 0 then none else
  let s2 := s.drop n1
  let n2 := countWhile isWordChar s2
  if n2 = 0 then none else
  match s2.drop n2 with
  | ':' :: rest =>
    if rest.isEmpty then none
    else
      let k := countWhile isWs rest
      some (String.mk (s2.take n2), String.mk (rest.drop (min k (rest.length - 1))))
  | _ => none

/-- The `DRAWER_REGEX`: `^\s+:(?<name>[\w_-]+):`. -/
def drawerMatch (l : String) : Option String :=
  let s := l.data
  let n1 := countWhile isWs s
  if n1 = 0 then none else
  match s.drop n1 with
  | ':' :: r2 =>
    let n2 := countWhile isDrawerChar r2
    if n2 = 0 then none else
    match r2.drop n2 with
    | ':' :: _ => some (String.mk (r2.take n2))
    | _ => none
  | _ => none

/-- The `CLOSE_DRAWER_REGEX`: `(?i)^\s+:end:`. -/
def closeDrawerMatch (l : String) : Bool :=
  let s := l.data
  let n1 := countWhile isWs s
  if n1 = 0 then false else
  match ciStarts ":end:".data (s.drop n1) with
  | some _ => true
  | none => false

/-- The `BLOCK_REGEX`: `(?i)^#\+BEGIN(?:_(?<type>[a-zA-Z]+))?:?\s*(?<args>(?:.+)?)$`.
Returns the raw `type` capture (if the optional group matched) and the raw
`args` capture.  After `#+BEGIN`, the optional `_TYPE`, the optional colon
and the whitespace run are taken greedily; the tail regex
`:?\s*((?:.+)?)$` then always succeeds on a newline-free line, with `args`
the remainder after the whitespace run. -/
def blockMatch (l : String) : Option (Option String × String) :=
  match ciStarts "#+BEGIN".data l.data with
  | none => none
  | some rest =>
    let (ty, rest2) :=
      match rest with
      | '_' :: r =>
        let n := countWhile isAlphaAZ r
        if n = 0 then (none, rest) else (some (String.mk (r.take n)), r.drop n)
      | _ => ((none : Option String), rest)
    let rest3 := match rest2 with | ':' :: r => r | _ => rest2
    some (ty, String.mk (rest3.drop (countWhile isWs rest3)))

/-- The `CLOSE_BLOCK_REGEX`: `(?i)^#\+END(?:_(?<type>[a-zA-Z]+))`.
The type group is not optional: a bare `#+END` does not match. -/
def closeBlockMatch (l : String) : Option String :=
  match ciStarts "#+END".data l.data with
  | some ('_' :: r) =>
    let n := countWhile isAlphaAZ r
    if n = 0 then none else some (String.mk (r.take n))
  | _ => none

/-- The `COMMENT_REGEX`: `^#\s+(?<content>.+)`.
If everything after `#` is whitespace, `\s+` backtracks by one so that `.+`
can still match a character. -/
def commentMatch (l : String) : Option String :=
  match l.data with
  | '#' :: rest =>
    let k := countWhile isWs rest
    if k = 0 then none
    else if k + 1 ≤ rest.length then some (String.mk (rest.drop k))
    else if 2 ≤ k then some (String.mk (rest.drop (k - 1)))
    else none
  | _ => none

/-- The `KEYWORD`: `^#\+(?<name>[a-zA-Z_]+):\s*(?<value>.+)$` (case-sensitive). -/
def keywordMatch (l : String) : Option (String × String) :=
  match l.data with
  | '#' :: '+' :: rest =>
    let n := countWhile isKeywordChar rest
    if n = 0 then none else
    match rest.drop n with
    | ':' :: r2 =>
      if r2.isEmpty then none
      else
        let k := countWhile isWs r2
        some (String.mk (rest.take n), String.mk (r2.drop (min k (r2.length - 1))))
    | _ => none
  | _ => none

/-- The `TABLE_ROW`: `^(?<cells>\|.+)+\|?` used via `is_match`: the line starts
with `|` followed by at least one non-newline character. -/
def tableRowMatch (l : String) : Bool :=
  match l.data with
  | '|' :: c :: _ => notNl c
  | _ => false

/-- The `INDENTED`: `^\s+`; `find(...).end()` is the leading whitespace run
(`Lexer::lstrip_equally` maps a non-match to 0). -/
def indentOf (l : String) : Nat := countWhile isWs l.data

/-! ## The lexer (`src/org/lex.rs`) -/

/-- The outcome of running a piece of the program: a value, a recoverable
`Err` (Rust `Result::Err`), or a Rust panic (`panic!`, `todo!`, a failed
`unwrap`). -/
inductive RunResult (α : Type) where
  | ok : α → RunResult α
  | err : String → RunResult α
  | panic : String → RunResult α
deriving DecidableEq, Repr

/-- The `lex::Location` (the `u32` line counter is modelled as `Nat`; the inputs
considered never approach the wrap-around). -/
structure Location where
  file : String
  line : Nat
deriving DecidableEq, Repr

/-- The `Location::incremented`. -/
def Location.incremented (l : Location) : Location := ⟨l.file, l.line + 1⟩

/-- The `lex::TokenKind`, field for field.  (There is no `Macro` variant:
`mod.rs` pattern-matches `TokenKind::Macro`, but `lex.rs` defines only
`DynBlock`, which carries the raw args string and the accumulated lines.) -/
inductive TokenKind where
  | emptyLine : TokenKind
  | paragraph (content : String) : TokenKind
  | table (rows : List (List String)) : TokenKind
  | heading (level : Nat) (todoState : Option String) (priority : Option String)
      (commented : Bool) (title : String) (tags : List String) (archived : Bool)
      (completionAmount : Option String) : TokenKind
  | planning (type value : String) : TokenKind
  | lesserBlock (type : String) (contents : List String) (args : String) : TokenKind
  | greaterBlock (type : String) (contents : List String) (args : String) : TokenKind
  | keyword (name content : String) : TokenKind
  | comment (content : String) : TokenKind
  | drawer (name : String) (contents : List String) : TokenKind
  | dynBlock (args : String) (contents : List String) : TokenKind
deriving DecidableEq, Repr

structure Token where
  kind : TokenKind
  location : Location
deriving DecidableEq, Repr

/-- The `lex::State`. -/
inductive LexState where
  | default : LexState
  | drawerS (lines : List String) (name : String) (start : Location) : LexState
  | blockS (type : Option String) (args : String) (lines : List String) (start : Location) : LexState
deriving DecidableEq, Repr

/-- The `lex::Lexer`. -/
structure Lexer where
  currentLocation : Location
  validForInitialDrawer : Bool
  state : LexState
  tokens : List Token
deriving DecidableEq, Repr

/-- The `Lexer::new`. -/
def Lexer.new (filename : String) : Lexer :=
  ⟨⟨filename, 1⟩, true, .default, []⟩

/-- The `Lexer::wrap`. -/
def Lexer.wrap (lx : Lexer) (kind : TokenKind) : Option Token :=
  some ⟨kind, lx.currentLocation⟩

/-- The `Lexer::lstrip_equally`.  `reduce(min)` over an empty iterator is `None`,
so the `unwrap` panics when `lines` is empty; otherwise every line is cut at
the minimum shared leading-whitespace length. -/
def lstripEqually (lines : List String) : RunResult (List String) :=
  match lines.map indentOf with
  | [] => .panic "called `Option::unwrap()` on a `None` value"
  | n :: ns =>
    let sharedIndent := ns.foldl min n
    .ok (lines.map (fun l => String.mk (l.data.drop sharedIndent)))

/-- The `Lexer::construct_block`. -/
def constructBlock (type? : Option String) (lines : List String) (args : String)
    (start : Location) : RunResult Token :=
  match type? with
  | some t =>
    match t with
    | "comment" => .ok ⟨.comment (sJoinNl lines), start⟩
    | "src" | "verse" | "example" | "export" =>
      match lstripEqually lines with
      | .ok stripped => .ok ⟨.lesserBlock t stripped args, start⟩
      | .err m => .err m
      | .panic m => .panic m
    | _ => .ok ⟨.greaterBlock t lines args, start⟩
  | none => .ok ⟨.dynBlock args lines, start⟩

/-- The guard of the planning branch: the previously emitted token is a
`Planning` or a `Heading` (`self.tokens.last()`). -/
def lastPlanningOrHeading (ts : List Token) : Bool :=
  match ts.getLast? with
  | some ⟨.planning _ _, _⟩ => true
  | some ⟨.heading _ _ _ _ _ _ _ _, _⟩ => true
  | _ => false

/-- Replace the final element (`self.tokens[len - 1] = ...`). -/
def updateLast (ts : List Token) (t : Token) : List Token := ts.dropLast ++ [t]

/-- One table row: `line.trim().split("|").map(|x| x.trim().to_owned())`. -/
def rowOf (line : String) : List String := (sSplitChar '|' (rsTrim line)).map rsTrim

/-- The paragraph merge: indented continuation lines join with a single
space (and are left-trimmed), others join with a newline. -/
def mergePara (content line : String) : String :=
  if 0 < indentOf line then rsTrimRight content ++ " " ++ rsTrimLeft line
  else rsTrimRight content ++ "\n" ++ line

/-- The `x[2..x.len() - 1]` applied to the trimmed priority capture `#[c]`. -/
def priSlice (x : String) : String :=
  String.mk ((x.data.drop 2).take (x.data.length - 3))

/-- The `Lexer::handle_normal`: the Default-state line classification, branch
for branch in source order.  The only panic is the `u8::try_from(..).unwrap()`
on the star count. -/
def handleNormal (lx : Lexer) (line : String) : RunResult (Lexer × Option Token) :=
  if rsTrim line = "" then .ok (lx, lx.wrap .emptyLine)
  else
    match headingMatch line with
    | some h =>
      let tags := (sSplitChar ':' (h.tagsRaw.getD "")).filter (fun x => x ≠ "")
      if 255 < h.stars then .panic "called `Result::unwrap()` on an `Err` value"
      else
        .ok (lx, lx.wrap (.heading h.stars h.todoState (h.priority.map priSlice)
          (rsStarts h.title "COMMENT") h.title tags (tags.contains "ARCHIVED") h.completion))
    | none =>
      match (if lastPlanningOrHeading lx.tokens then planningMatch line else none) with
      | some (ty, v) => .ok (lx, lx.wrap (.planning ty v))
      | none =>
        match drawerMatch line with
        | some nm => .ok ({ lx with state := .drawerS [] nm lx.currentLocation }, none)
        | none =>
          match blockMatch line with
          | some (ty, args) =>
            .ok ({ lx with
                    state := .blockS (ty.map (fun t => rsLower (rsTrim t))) args []
                      lx.currentLocation }, none)
          | none =>
            match commentMatch line with
            | some content => .ok (lx, lx.wrap (.comment content))
            | none =>
              match keywordMatch line with
              | some (nm, v) => .ok (lx, lx.wrap (.keyword (rsLower nm) v))
              | none =>
                if tableRowMatch line then
                  match lx.tokens.getLast? with
                  | some ⟨.table rows, loc⟩ =>
                    .ok ({ lx with tokens := updateLast lx.tokens ⟨.table (rows ++ [rowOf line]), loc⟩ }, none)
                  | _ => .ok (lx, lx.wrap (.table [rowOf line]))
                else
                  match lx.tokens.getLast? with
                  | some ⟨.paragraph c, loc⟩ =>
                    .ok ({ lx with tokens := updateLast lx.tokens ⟨.paragraph (mergePara c line), loc⟩ }, none)
                  | _ => .ok (lx, lx.wrap (.paragraph (rsTrimLeft line)))

/-- The `Lexer::handle_line`: dispatch on the state machine.  In the `Block`
state, a line matching `CLOSE_BLOCK_REGEX` whose (always present) type tag
differs from the stored one is an unrecoverable `panic!`. -/
def handleLine (lx : Lexer) (line : String) : RunResult (Lexer × Option Token) :=
  match lx.state with
  | .default => handleNormal lx line
  | .drawerS lines nm start =>
    if closeDrawerMatch line then
      .ok ({ lx with state := .default }, some ⟨.drawer nm lines, start⟩)
    else
      .ok ({ lx with state := .drawerS (lines ++ [line]) nm start }, none)
  | .blockS ty args lines start =>
    match closeBlockMatch line with
    | some closeTy =>
      if some (rsLower (rsTrim closeTy)) ≠ ty then .panic "Closing a block of a different type."
      else
        match constructBlock ty lines args start with
        | .ok tok => .ok ({ lx with state := .default }, some tok)
        | .err m => .err m
        | .panic m => .panic m
    | none => .ok ({ lx with state := .blockS ty args (lines ++ [line]) start }, none)

/-- The loop body of `Lexer::lex`: handle the line, push the produced token
(if any), refresh `valid_for_initial_drawer` (a field that is updated but
never read), and advance the location counter. -/
def lexLine (lx : Lexer) (line : String) : RunResult Lexer :=
  match handleLine lx line with
  | .err m => .err m
  | .panic m => .panic m
  | .ok (lx2, tok?) =>
    let lx3 :=
      match tok? with
      | some t =>
        { lx2 with
          tokens := lx2.tokens ++ [t]
          validForInitialDrawer :=
            (match t.kind with
             | .keyword _ _ => true
             | .drawer _ _ => true
             | _ => false) && lx2.validForInitialDrawer }
      | none => lx2
    .ok { lx3 with currentLocation := lx3.currentLocation.incremented }

/-- The line loop of `Lexer::lex`. -/
def lexSteps (lx : Lexer) : List String → RunResult Lexer
  | [] => .ok lx
  | line :: rest =>
    match lexLine lx line with
    | .ok lx2 => lexSteps lx2 rest
    | .err m => .err m
    | .panic m => .panic m

/-- The `content.split('\n')`. -/
def rsSplitLines (content : String) : List String := sSplitChar '\n' content

/-- The `Lexer::lex`: run the state machine over the lines; fail with
`"Unexpected EOF."` if it does not end in the Default state; filter the
`EmptyLine` tokens from the result. -/
def orgLex (filename content : String) : RunResult (List Token) :=
  match lexSteps (Lexer.new filename) (rsSplitLines content) with
  | .err m => .err m
  | .panic m => .panic m
  | .ok lx =>
    if lx.state ≠ LexState.default then .err "Unexpected EOF."
    else .ok (lx.tokens.filter (fun t => t.kind ≠ TokenKind.emptyLine))

/-! ## The document assembler (`src/org/mod.rs`) -/

/-- The `org::Node`. -/
inductive Node where
  | heading (level : Nat) (title : String) (todoState : Option String)
      (tags : List String) (commented : Bool) : Node
  | paragraph (content : String) : Node
  | lesserBlock (type_ : String) (args : List String) (contents : String) : Node
  | table (rows : List (List String)) : Node
deriving DecidableEq, Repr

/-- The `org::Section`. -/
structure Section where
  nodes : List Node
  commented : Bool
deriving DecidableEq, Repr

/-- The `org::Document`.  The `HashMap<String, String>` metadata is embedded as
an association list whose `insert` overwrites an existing key. -/
structure Document where
  metadata : List (String × String)
  sections : List Section
deriving DecidableEq, Repr

/-- The `HashMap::insert` (last write wins). -/
def metaInsert (m : List (String × String)) (k v : String) : List (String × String) :=
  if m.any (fun e => e.1 = k) then m.map (fun e => if e.1 = k then (k, v) else e)
  else m ++ [(k, v)]

/-- The non-heading half of `Document::add_to_last`: push onto the nodes of
the final section.  (On an empty list the Rust `self.sections.len() - 1`
would underflow, but `sections` starts with the preamble and never shrinks,
so the case is unreachable; it is mapped to the identity.) -/
def appendToLastSection : List Section → Node → List Section
  | [], _ => []
  | [s], n => [⟨s.nodes ++ [n], s.commented⟩]
  | s :: s2 :: rest, n => s :: appendToLastSection (s2 :: rest) n

/-- The `Document::add_to_last`: a heading starts a new section whose
`commented` flag is fixed from the heading; anything else is appended to
the current (last) section. -/
def Document.addToLast (d : Document) (n : Node) : Document :=
  match n with
  | .heading level title todo tags commented =>
    { d with sections := d.sections ++ [⟨[.heading level title todo tags commented], commented⟩] }
  | _ => { d with sections := appendToLastSection d.sections n }

/-- The token fold of `Document::parse`.  The match of the source also has an
arm for `TokenKind::Macro { name, args }` (the "listing" expansion), but
`lex.rs` defines no such variant and the lexer can never produce one, so
that arm is unreachable and omitted; every kind without an arm —
`Planning`, `Drawer`, `GreaterBlock`, `DynBlock`, `EmptyLine` — falls into
the catch-all arm of the source, a todo-panic. -/
def parseGo (d : Document) : List Token → RunResult Document
  | [] => .ok d
  | tok :: rest =>
    match tok.kind with
    | .heading level todo _ commented title tags _ _ =>
      parseGo (d.addToLast (.heading level title todo tags commented)) rest
    | .paragraph c => parseGo (d.addToLast (.paragraph c)) rest
    | .lesserBlock t contents args =>
      parseGo (d.addToLast (.lesserBlock t (sSplitChar ' ' args) (sJoinNl contents))) rest
    | .table rows => parseGo (d.addToLast (.table rows)) rest
    | .keyword nm c => parseGo { d with metadata := metaInsert d.metadata nm c } rest
    | .comment _ => parseGo d rest
    | _ => .panic "not yet implemented"

/-- The initial document of `Document::parse`: empty metadata and the
preamble section. -/
def emptyDocument : Document := ⟨[], [⟨[], false⟩]⟩

/-- The `Document::parse` applied to an already-lexed token list. -/
def parseTokens (toks : List Token) : RunResult Document := parseGo emptyDocument toks

/-- The `Document::parse` (the `FileContext` argument is consumed only by the
unreachable listing arm, see `parseGo`, and is omitted). -/
def documentParse (content filename : String) : RunResult Document :=
  match orgLex filename content with
  | .ok toks => parseTokens toks
  | .err m => .err m
  | .panic m => .panic m

/-! ## The HTML renderer (`src/org/html.rs`)

The builder methods of the `build_html` crate insert their text arguments
verbatim (no escaping): the crate exposes `escape_html` as a separate
function, which `mod.rs` and `inline.rs` call explicitly where escaping is
wanted, and the renderer tests of the repository itself pin the exact output shapes
used below — `add_header` (`<hN>…</hN>`), `add_paragraph` (`<p>…</p>`, with
a raw `<br />` surviving in `html.rs` test `paragraphs`), `add_preformatted`
(`<pre>…</pre>`), `add_table` (`<table><thead></thead><tbody>` rows as
`<tr><td>…</td>…</tr>`, test `table`), and `to_html_string` on the
`div.article` container. -/

/-- One rendered table row (`build_html::Table::from` + `add_table`). -/
def trRow (row : List String) : String :=
  "<tr>" ++ String.join (row.map (fun c => "<td>" ++ c ++ "</td>")) ++ "</tr>"

/-- The rendered table element. -/
def tableHtml (rows : List (List String)) : String :=
  "<table><thead></thead><tbody>" ++ String.join (rows.map trRow) ++ "</tbody></table>"

/-- The rendered header element (`add_header(*level, title)`). -/
def headerHtml (level : Nat) (title : String) : String :=
  "<h" ++ toString level ++ ">" ++ title ++ "</h" ++ toString level ++ ">"

/-- One arm of the node loop in `HtmlBuilder::from_document`, acting on the
accumulated builder contents.  `LesserBlock` types other than `"src"` and
`"export"` hit the todo-panic of the source; an `"export"` block whose last
argument is not `"html"` appends nothing. -/
def renderNode (acc : String) (n : Node) : RunResult String :=
  match n with
  | .heading level title _ _ _ => .ok (acc ++ headerHtml level title)
  | .paragraph c => .ok (acc ++ "<p>" ++ sReplaceNlBr c ++ "</p>")
  | .lesserBlock t args contents =>
    match t with
    | "src" =>
      match args with
      | a0 :: _ => .ok (acc ++ "<pre><code class=\"language-" ++ a0 ++ "\">" ++ contents ++ "</code></pre>")
      | [] => .ok (acc ++ "<pre><code>" ++ contents ++ "</code></pre>")
    | "export" =>
      if args.getLast? = some "html" then .ok (acc ++ contents) else .ok acc
    | _ => .panic "not yet implemented"
  | .table rows => .ok (acc ++ tableHtml rows)

/-- The node loop of `HtmlBuilder::from_document` over one section. -/
def renderNodes (ns : List Node) (acc : String) : RunResult String :=
  match ns with
  | [] => .ok acc
  | n :: rest =>
    match renderNode acc n with
    | .ok acc2 => renderNodes rest acc2
    | .err m => .err m
    | .panic m => .panic m

/-- The section loop of `HtmlBuilder::from_document`: commented sections
are skipped entirely. -/
def renderSections (ss : List Section) (acc : String) : RunResult String :=
  match ss with
  | [] => .ok acc
  | s :: rest =>
    if s.commented then renderSections rest acc
    else
      match renderNodes s.nodes acc with
      | .ok acc2 => renderSections rest acc2
      | .err m => .err m
      | .panic m => .panic m

/-- The `HtmlBuilder::from_document` followed by `to_html_string`: the builder
is a `div` with class `article` wrapping the accumulated fragments. -/
def fromDocument (doc : Document) : RunResult String :=
  match renderSections doc.sections "" with
  | .ok body => .ok ("<div class=\"article\">" ++ body ++ "</div>")
  | .err m => .err m
  | .panic m => .panic m

/-- The `Document::to_html` composed with `Document::parse`. -/
def parseAndRender (content filename : String) : RunResult String :=
  match documentParse content filename with
  | .ok doc => fromDocument doc
  | .err m => .err m
  | .panic m => .panic m

/-! ## Derived notions used by the claims -/

/-- Is this token a `Heading` token? -/
def Token.isHeadingTok (t : Token) : Bool :=
  match t.kind with
  | .heading _ _ _ _ _ _ _ _ => true
  | _ => false

/-- The number of `Heading` tokens in a lexer output. -/
def countHeadings (toks : List Token) : Nat := (toks.filter Token.isHeadingTok).length

/-- Is this node a `Heading` node? -/
def Node.isHeadingNode : Node → Bool
  | .heading _ _ _ _ _ => true
  | _ => false

/-- A line that reaches the paragraph branch of `Lexer::handle_normal`:
non-blank and rejected by every earlier classifier.  (The planning branch
additionally requires the previous token to be a `Planning` or `Heading`,
which the paragraph scenarios below rule out by construction.) -/
def ParagraphLine (l : String) : Prop :=
  rsTrim l ≠ "" ∧ headingMatch l = none ∧ drawerMatch l = none ∧ blockMatch l = none ∧
  commentMatch l = none ∧ keywordMatch l = none ∧ tableRowMatch l = false

instance (l : String) : Decidable (ParagraphLine l) := by
  unfold ParagraphLine; infer_instance

/-- The `c1 ++ "|" ++ c2 ++ "|" ++ ... ++ cN`: the interior of a table-row
source line. -/
def pipeJoin : List String → String
  | [] => ""
  | [c] => c
  | c :: c2 :: rest => c ++ "|" ++ pipeJoin (c2 :: rest)

/-- The table-row source line `|c1|c2|...|cN|`. -/
def rowLine (cells : List String) : String := "|" ++ pipeJoin cells ++ "|"

/-! ## Helper lemmas about the document assembler -/

theorem length_appendToLastSection (ss : List Section) (n : Node) :
    (appendToLastSection ss n).length = ss.length := by
  induction ss with
  | nil => rfl
  | cons s rest ih =>
    cases rest with
    | nil => rfl
    | cons s2 r2 => simpa [appendToLastSection] using ih

theorem appendToLastSection_cons2 (s s2 : Section) (rest : List Section) (n : Node) :
    appendToLastSection (s :: s2 :: rest) n = s :: appendToLastSection (s2 :: rest) n := rfl

theorem appendToLastSection_single (s : Section) (n : Node) :
    appendToLastSection [s] n = [⟨s.nodes ++ [n], s.commented⟩] := rfl

theorem countHeadings_cons (t : Token) (rest : List Token) :
    countHeadings (t :: rest) =
      (if t.isHeadingTok then 1 else 0) + countHeadings rest := by
  by_cases h : t.isHeadingTok = true <;>
    simp [countHeadings, List.filter_cons, h, Nat.add_comm]

/-- The sections of a document only grow by one per `Heading` token during
the fold of `Document::parse`. -/
theorem parseGo_sections_length (toks : List Token) : ∀ (d d' : Document),
    parseGo d toks = .ok d' →
    d'.sections.length = d.sections.length + countHeadings toks := by
  induction toks with
  | nil =>
    intro d d' h
    cases h
    simp [countHeadings]
  | cons tok rest ih =>
    intro d d' h
    obtain ⟨k, loc⟩ := tok
    cases k with
    | heading level todo pri commented title tags archived comp =>
      have h2 := ih _ _ h
      rw [h2]
      simp [Document.addToLast, countHeadings_cons, Token.isHeadingTok]
      omega
    | paragraph c =>
      have h2 := ih _ _ h
      rw [h2]
      simp [Document.addToLast, length_appendToLastSection, countHeadings_cons, Token.isHeadingTok]
    | lesserBlock t contents args =>
      have h2 := ih _ _ h
      rw [h2]
      simp [Document.addToLast, length_appendToLastSection, countHeadings_cons, Token.isHeadingTok]
    | table rows =>
      have h2 := ih _ _ h
      rw [h2]
      simp [Document.addToLast, length_appendToLastSection, countHeadings_cons, Token.isHeadingTok]
    | keyword nm c =>
      have h2 := ih _ _ h
      rw [h2]
      simp [countHeadings_cons, Token.isHeadingTok]
    | comment c =>
      have h2 := ih _ _ h
      rw [h2]
      simp [countHeadings_cons, Token.isHeadingTok]
    | emptyLine => cases h
    | planning ty v => cases h
    | greaterBlock t contents args => cases h
    | drawer nm contents => cases h
    | dynBlock args contents => cases h

/-- The fold of `Document::parse` keeps the first section in place: it stays
first, keeps `commented = false` if it started that way, and never receives
a `Heading` node. -/
theorem parseGo_preamble (toks : List Token) : ∀ (d d' : Document),
    parseGo d toks = .ok d' →
    (∃ s rest, d.sections = s :: rest ∧ s.commented = false ∧
      ∀ n ∈ s.nodes, n.isHeadingNode = false) →
    ∃ s rest, d'.sections = s :: rest ∧ s.commented = false ∧
      ∀ n ∈ s.nodes, n.isHeadingNode = false := by
  induction toks with
  | nil =>
    intro d d' h hd
    cases h
    exact hd
  | cons tok rest ih =>
    intro d d' h hd
    obtain ⟨s, srest, hsec, hc, hns⟩ := hd
    obtain ⟨k, loc⟩ := tok
    cases k with
    | heading level todo pri commented title tags archived comp =>
      refine ih _ _ h ⟨s, srest ++ [⟨[.heading level title todo tags commented], commented⟩], ?_, hc, hns⟩
      simp [Document.addToLast, hsec]
    | paragraph c =>
      refine ih _ _ h ?_
      cases srest with
      | nil =>
        exact ⟨⟨s.nodes ++ [.paragraph c], s.commented⟩, [],
          by simp [Document.addToLast, hsec, appendToLastSection_single], hc, by
            intro n hn
            rcases List.mem_append.mp hn with hn | hn
            · exact hns n hn
            · simp at hn; subst hn; rfl⟩
      | cons s2 r2 =>
        exact ⟨s, appendToLastSection (s2 :: r2) (.paragraph c),
          by simp [Document.addToLast, hsec, appendToLastSection_cons2], hc, hns⟩
    | lesserBlock t contents args =>
      refine ih _ _ h ?_
      cases srest with
      | nil =>
        exact ⟨⟨s.nodes ++ [.lesserBlock t (sSplitChar ' ' args) (sJoinNl contents)], s.commented⟩, [],
          by simp [Document.addToLast, hsec, appendToLastSection_single], hc, by
            intro n hn
            rcases List.mem_append.mp hn with hn | hn
            · exact hns n hn
            · simp at hn; subst hn; rfl⟩
      | cons s2 r2 =>
        exact ⟨s, appendToLastSection (s2 :: r2) (.lesserBlock t (sSplitChar ' ' args) (sJoinNl contents)),
          by simp [Document.addToLast, hsec, appendToLastSection_cons2], hc, hns⟩
    | table rows =>
      refine ih _ _ h ?_
      cases srest with
      | nil =>
        exact ⟨⟨s.nodes ++ [.table rows], s.commented⟩, [],
          by simp [Document.addToLast, hsec, appendToLastSection_single], hc, by
            intro n hn
            rcases List.mem_append.mp hn with hn | hn
            · exact hns n hn
            · simp at hn; subst hn; rfl⟩
      | cons s2 r2 =>
        exact ⟨s, appendToLastSection (s2 :: r2) (.table rows),
          by simp [Document.addToLast, hsec, appendToLastSection_cons2], hc, hns⟩
    | keyword nm c => exact ih _ _ h ⟨s, srest, hsec, hc, hns⟩
    | comment c => exact ih _ _ h ⟨s, srest, hsec, hc, hns⟩
    | emptyLine => cases h
    | planning ty v => cases h
    | greaterBlock t contents args => cases h
    | drawer nm contents => cases h
    | dynBlock args contents => cases h

/-! ## C1: section count = 1 + number of Heading tokens -/

/-- C1: whenever the lexer succeeds and `Document::parse` accepts the token
sequence, the resulting document has exactly one section (the preamble)
plus one per `Heading` token produced by the lexer. -/
theorem c1_section_count (fname content : String) (toks : List Token) (doc : Document)
    (_hlex : orgLex fname content = .ok toks)
    (hparse : parseTokens toks = .ok doc) :
    doc.sections.length = 1 + countHeadings toks := by
  have h := parseGo_sections_length toks emptyDocument doc hparse
  simpa [emptyDocument] using h

/-- C1 witness: `"* a"` lexes to one heading token; the parsed document has
2 = 1 + 1 sections. -/
theorem c1_section_count_witness :
    (⟨[], [⟨[], false⟩, ⟨[Node.heading 1 "a" none [] false], false⟩]⟩ : Document).sections.length
      = 1 + countHeadings [⟨.heading 1 none none false "a" [] false none, ⟨"w.org", 1⟩⟩] :=
  c1_section_count "w.org" "* a" _ _ rfl rfl

/-! ## C5: the preamble section -/

/-- C5: whenever `Document::parse` succeeds, the sections list is non-empty
and starts with the preamble: a section with `commented = false` that
contains no `Heading` node (all heading nodes start their own sections),
retained even when empty. -/
theorem c5_preamble (content fname : String) (doc : Document)
    (h : documentParse content fname = .ok doc) :
    doc.sections ≠ [] ∧ ∃ s rest, doc.sections = s :: rest ∧ s.commented = false ∧
      ∀ n ∈ s.nodes, n.isHeadingNode = false := by
  unfold documentParse at h
  cases hl : orgLex fname content with
  | ok toks =>
    rw [hl] at h
    have hp := parseGo_preamble toks emptyDocument doc h
      ⟨⟨[], false⟩, [], rfl, rfl, by simp⟩
    obtain ⟨s, rest, hsec, hc, hns⟩ := hp
    exact ⟨by simp [hsec], s, rest, hsec, hc, hns⟩
  | err m => rw [hl] at h; cases h
  | panic m => rw [hl] at h; cases h

/-- C5 witness: the empty input yields the document with just the empty,
non-commented preamble section. -/
theorem c5_preamble_witness :
    (⟨[], [⟨[], false⟩]⟩ : Document).sections ≠ [] ∧
    ∃ s rest, (⟨[], [⟨[], false⟩]⟩ : Document).sections = s :: rest ∧ s.commented = false ∧
      ∀ n ∈ s.nodes, n.isHeadingNode = false :=
  c5_preamble "" "f.org" _ rfl

/-! ## C7: the unexpected-end-of-input error -/

/-- C7: lexing returns the "unexpected end of input" error (`"Unexpected
EOF."`) exactly when the state machine is not in its `Default` state once
every input line has been consumed. -/
theorem c7_unexpected_eof (fname content : String) (lx : Lexer)
    (h : lexSteps (Lexer.new fname) (rsSplitLines content) = .ok lx) :
    (orgLex fname content = .err "Unexpected EOF.") ↔ lx.state ≠ LexState.default := by
  unfold orgLex
  rw [h]
  by_cases hs : lx.state = LexState.default
  · simp [hs]
  · simp [hs]

/-- C7 witness: a drawer that is opened but never closed
(`"    :drawer:\n    x: y"`) leaves the machine in the `Drawer` state, so
lexing fails with the "unexpected end of input" error. -/
theorem c7_unexpected_eof_witness :
    orgLex "test.org" "    :drawer:\n    x: y" = .err "Unexpected EOF." :=
  (c7_unexpected_eof "test.org" "    :drawer:\n    x: y" _ rfl).mpr (by decide)

/-! ## C8: `Document::parse` panics on lexable input -/

/-- C8: a heading followed by an indented planning line lexes successfully
(to a `Heading` and a `Planning` token), yet `Document::parse` hits the
`_ => todo!()` arm on the `Planning` token and panics instead of returning
a `Document` or an error. -/
theorem c8_parse_panics_on_planning :
    orgLex "plan.org" "* test\n    DEADLINE: tomorrow" =
      .ok [⟨.heading 1 none none false "test" [] false none, ⟨"plan.org", 1⟩⟩,
           ⟨.planning "DEADLINE" "tomorrow", ⟨"plan.org", 2⟩⟩]
    ∧ documentParse "* test\n    DEADLINE: tomorrow" "plan.org" = .panic "not yet implemented" :=
  ⟨rfl, rfl⟩

/-! ## C3: bare `#+BEGIN:` blocks -/

/-- C3: a block opened with a bare `#+BEGIN:` line can never produce the
`DynBlock` token.  `CLOSE_BLOCK_REGEX` makes the `_TYPE` tag mandatory, so
the documented closer `#+END` does not match it and the block never closes
(lexing fails with the end-of-input error), while any closer that does
match carries a type tag, which differs from the stored `None` and triggers
the mismatch `panic!`. -/
theorem c3_bare_block_never_closes :
    orgLex "dyn.org" "#+BEGIN: listing /articles\n#+END" = .err "Unexpected EOF."
    ∧ orgLex "dyn.org" "#+BEGIN: listing /articles\n#+END_html" =
        .panic "Closing a block of a different type." :=
  ⟨rfl, rfl⟩

/-! ## C9: a lesser block with no content lines -/

/-- C9: `Lexer::construct_block` on a lesser-block type with zero
accumulated lines panics inside `Lexer::lstrip_equally` (the `unwrap` of
`reduce(min)` over an empty iterator); in particular `#+BEGIN_SRC`
immediately followed by `#+END_SRC` makes the whole lexer panic instead of
emitting a `LesserBlock` token or returning an error. -/
theorem c9_empty_lesser_block_panics (t args : String) (start : Location)
    (h : t = "src" ∨ t = "verse" ∨ t = "example" ∨ t = "export") :
    constructBlock (some t) [] args start = .panic "called `Option::unwrap()` on a `None` value"
    ∧ orgLex "b.org" "#+BEGIN_SRC\n#+END_SRC" =
        .panic "called `Option::unwrap()` on a `None` value" := by
  refine ⟨?_, rfl⟩
  rcases h with h | h | h | h <;> subst h <;> rfl

/-- C9 witness: the empty `src` block at a concrete location. -/
theorem c9_empty_lesser_block_panics_witness :
    constructBlock (some "src") [] "" ⟨"b.org", 1⟩ =
      .panic "called `Option::unwrap()` on a `None` value" :=
  (c9_empty_lesser_block_panics "src" "" ⟨"b.org", 1⟩ (Or.inl rfl)).1

/-! ## Helper lemmas about strings and the renderer -/

theorem strAppendEmpty (s : String) : s ++ "" = s := by
  apply String.ext
  simp [String.data_append]

theorem strAppendAssoc (a b c : String) : a ++ b ++ c = a ++ (b ++ c) := by
  apply String.ext
  simp [String.data_append]

theorem renderNodes_append (xs ys : List Node) (acc : String) :
    renderNodes (xs ++ ys) acc =
      match renderNodes xs acc with
      | .ok a => renderNodes ys a
      | .err m => .err m
      | .panic m => .panic m := by
  induction xs generalizing acc with
  | nil => simp [renderNodes]
  | cons n rest ih =>
    simp only [List.cons_append, renderNodes]
    cases renderNode acc n with
    | ok a2 => exact ih a2
    | err m => rfl
    | panic m => rfl

theorem renderNode_ok_grows (acc : String) (n : Node) (out : String)
    (h : renderNode acc n = .ok out) : ∃ ext, out = acc ++ ext := by
  unfold renderNode at h
  repeat' split at h
  all_goals cases h
  all_goals
    first
      | exact ⟨_, rfl⟩
      | exact ⟨"", (strAppendEmpty _).symm⟩
      | exact ⟨_, by simp only [strAppendAssoc]; rfl⟩

theorem renderNodes_ok_grows (ns : List Node) : ∀ (acc out : String),
    renderNodes ns acc = .ok out → ∃ ext, out = acc ++ ext := by
  induction ns with
  | nil =>
    intro acc out h
    cases h
    exact ⟨"", (strAppendEmpty acc).symm⟩
  | cons n rest ih =>
    intro acc out h
    unfold renderNodes at h
    cases hr : renderNode acc n with
    | ok a2 =>
      rw [hr] at h
      obtain ⟨e1, he1⟩ := renderNode_ok_grows acc n a2 hr
      obtain ⟨e2, he2⟩ := ih a2 out h
      exact ⟨e1 ++ e2, by rw [he2, he1, strAppendAssoc]⟩
    | err m => rw [hr] at h; cases h
    | panic m => rw [hr] at h; cases h

theorem renderSections_append (xs ys : List Section) (acc : String) :
    renderSections (xs ++ ys) acc =
      match renderSections xs acc with
      | .ok a => renderSections ys a
      | .err m => .err m
      | .panic m => .panic m := by
  induction xs generalizing acc with
  | nil => simp [renderSections]
  | cons s rest ih =>
    simp only [List.cons_append, renderSections]
    by_cases hc : s.commented
    · simp only [hc, if_true]
      exact ih acc
    · simp only [hc, if_false]
      cases renderNodes s.nodes acc with
      | ok a2 => exact ih a2
      | err m => rfl
      | panic m => rfl

theorem renderSections_ok_grows (ss : List Section) : ∀ (acc out : String),
    renderSections ss acc = .ok out → ∃ ext, out = acc ++ ext := by
  induction ss with
  | nil =>
    intro acc out h
    cases h
    exact ⟨"", (strAppendEmpty acc).symm⟩
  | cons s rest ih =>
    intro acc out h
    unfold renderSections at h
    by_cases hc : s.commented
    · rw [if_pos hc] at h
      exact ih acc out h
    · rw [if_neg hc] at h
      cases hr : renderNodes s.nodes acc with
      | ok a2 =>
        rw [hr] at h
        obtain ⟨e1, he1⟩ := renderNodes_ok_grows s.nodes acc a2 hr
        obtain ⟨e2, he2⟩ := ih a2 out h
        exact ⟨e1 ++ e2, by rw [he2, he1, strAppendAssoc]⟩
      | err m => rw [hr] at h; cases h
      | panic m => rw [hr] at h; cases h

/-- An `export` lesser block whose last argument is not `"html"` contributes
nothing to the node loop. -/
theorem renderNodes_skip_export (args : List String) (contents : String)
    (h : args.getLast? ≠ some "html") (ns2 : List Node) (a : String) :
    renderNodes (Node.lesserBlock "export" args contents :: ns2) a = renderNodes ns2 a := by
  simp only [renderNodes, renderNode, if_neg h]

/-- Replacing the node list of one non-commented section by one with the
same rendering behaviour does not change the section loop. -/
theorem renderSections_node_eq (pre post : List Section) (n1 n2 : List Node)
    (hn : ∀ a, renderNodes n1 a = renderNodes n2 a) :
    ∀ acc, renderSections (pre ++ ⟨n1, false⟩ :: post) acc
         = renderSections (pre ++ ⟨n2, false⟩ :: post) acc := by
  induction pre with
  | nil =>
    intro acc
    simp only [List.nil_append, renderSections]
    rw [hn acc]
  | cons s rest ih =>
    intro acc
    simp only [List.cons_append, renderSections]
    by_cases hc : s.commented
    · simp only [hc, if_true]
      exact ih acc
    · simp only [hc, if_false]
      cases renderNodes s.nodes acc with
      | ok a2 => exact ih a2
      | err m => rfl
      | panic m => rfl

/-! ## C10: export blocks not targeting html are dropped silently -/

/-- C10: an `export` lesser block whose last argument is not `"html"` is
silently dropped by the renderer: the rendered document is identical to the
one without that node, and no failure is introduced. -/
theorem c10_export_non_html_dropped (md : List (String × String)) (pre post : List Section)
    (ns1 ns2 : List Node) (args : List String) (contents : String)
    (h : args.getLast? ≠ some "html") :
    fromDocument ⟨md, pre ++ ⟨ns1 ++ Node.lesserBlock "export" args contents :: ns2, false⟩ :: post⟩
      = fromDocument ⟨md, pre ++ ⟨ns1 ++ ns2, false⟩ :: post⟩ := by
  have hn : ∀ a, renderNodes (ns1 ++ Node.lesserBlock "export" args contents :: ns2) a
      = renderNodes (ns1 ++ ns2) a := by
    intro a
    rw [renderNodes_append, renderNodes_append]
    cases renderNodes ns1 a with
    | ok a2 => exact renderNodes_skip_export args contents h ns2 a2
    | err m => rfl
    | panic m => rfl
  unfold fromDocument
  rw [renderSections_node_eq pre post _ _ hn ""]

/-- C10 witness: dropping a concrete `export` block aimed at `"latex"`. -/
theorem c10_export_non_html_dropped_witness :
    fromDocument ⟨[], [⟨[Node.paragraph "x", Node.lesserBlock "export" ["latex"] "<b>bold</b>"], false⟩]⟩
      = fromDocument ⟨[], [⟨[Node.paragraph "x"], false⟩]⟩ :=
  c10_export_non_html_dropped [] [] [] [Node.paragraph "x"] [] ["latex"] "<b>bold</b>" (by decide)

/-! ## C4 (amended): headings render at their level with a verbatim title -/

theorem renderSections_append_ok (xs ys : List Section) (acc out : String)
    (h : renderSections (xs ++ ys) acc = .ok out) :
    ∃ mid, renderSections xs acc = .ok mid ∧ renderSections ys mid = .ok out := by
  rw [renderSections_append] at h
  cases hx : renderSections xs acc with
  | ok a => rw [hx] at h; exact ⟨a, rfl, h⟩
  | err m => rw [hx] at h; cases h
  | panic m => rw [hx] at h; cases h

theorem renderNodes_append_ok (xs ys : List Node) (acc out : String)
    (h : renderNodes (xs ++ ys) acc = .ok out) :
    ∃ mid, renderNodes xs acc = .ok mid ∧ renderNodes ys mid = .ok out := by
  rw [renderNodes_append] at h
  cases hx : renderNodes xs acc with
  | ok a => rw [hx] at h; exact ⟨a, rfl, h⟩
  | err m => rw [hx] at h; cases h
  | panic m => rw [hx] at h; cases h

theorem renderSections_cons_false_ok (nodes : List Node) (rest : List Section) (acc out : String)
    (h : renderSections (⟨nodes, false⟩ :: rest) acc = .ok out) :
    ∃ mid, renderNodes nodes acc = .ok mid ∧ renderSections rest mid = .ok out := by
  unfold renderSections at h
  simp only [Bool.false_eq_true, if_false] at h
  cases hr : renderNodes nodes acc with
  | ok a2 => rw [hr] at h; exact ⟨a2, rfl, h⟩
  | err m => rw [hr] at h; cases h
  | panic m => rw [hr] at h; cases h

theorem renderNodes_cons_ok (n : Node) (rest : List Node) (acc out : String)
    (h : renderNodes (n :: rest) acc = .ok out) :
    ∃ mid, renderNode acc n = .ok mid ∧ renderNodes rest mid = .ok out := by
  unfold renderNodes at h
  cases hr : renderNode acc n with
  | ok a2 => rw [hr] at h; exact ⟨a2, rfl, h⟩
  | err m => rw [hr] at h; cases h
  | panic m => rw [hr] at h; cases h

/-- C4 amended: rendering a non-commented section containing a `Heading`
node of level L and title T yields an output in which the header element
`<hL>T</hL>` occurs with T inserted verbatim (not escaped). -/
theorem c4_header_verbatim (md : List (String × String)) (pre post : List Section)
    (ns1 ns2 : List Node) (level : Nat) (title : String) (todo : Option String)
    (tags : List String) (cflag : Bool) (out : String)
    (h : fromDocument ⟨md, pre ++ ⟨ns1 ++ Node.heading level title todo tags cflag :: ns2, false⟩ :: post⟩
          = .ok out) :
    ∃ a b, out = a ++ headerHtml level title ++ b := by
  unfold fromDocument at h
  cases hrs : renderSections (pre ++ ⟨ns1 ++ Node.heading level title todo tags cflag :: ns2, false⟩ :: post) "" with
  | ok body =>
    rw [hrs] at h
    injection h with hout
    obtain ⟨a0, hpre, hmid⟩ := renderSections_append_ok pre _ "" body hrs
    obtain ⟨a1, hnsec, hpost⟩ := renderSections_cons_false_ok _ post a0 body hmid
    obtain ⟨b1, hb1, hrest⟩ := renderNodes_append_ok ns1 _ a0 a1 hnsec
    obtain ⟨b2, hb2, hns2r⟩ := renderNodes_cons_ok _ ns2 b1 a1 hrest
    have hb2eq : b2 = b1 ++ headerHtml level title := by
      have hdef : renderNode b1 (Node.heading level title todo tags cflag)
          = .ok (b1 ++ headerHtml level title) := rfl
      rw [hdef] at hb2
      injection hb2 with hh
      exact hh.symm
    obtain ⟨e2, he2⟩ := renderNodes_ok_grows ns2 b2 a1 hns2r
    obtain ⟨e3, he3⟩ := renderSections_ok_grows post a1 body hpost
    refine ⟨"<div class=\"article\">" ++ b1, e2 ++ (e3 ++ "</div>"), ?_⟩
    rw [← hout, he3, he2, hb2eq]
    simp [strAppendAssoc]
  | err m => rw [hrs] at h; cases h
  | panic m => rw [hrs] at h; cases h

/-- C4 amended, witness: `"* Hello, World!"` parses to a document with one
level-1 heading titled `"Hello, World!"`, and its rendering contains
`<h1>Hello, World!</h1>`. -/
theorem c4_header_verbatim_witness :
    documentParse "* Hello, World!" "heading.org" =
      .ok ⟨[], [⟨[], false⟩, ⟨[Node.heading 1 "Hello, World!" none [] false], false⟩]⟩
    ∧ ∃ a b, "<div class=\"article\"><h1>Hello, World!</h1></div>"
        = a ++ headerHtml 1 "Hello, World!" ++ b :=
  ⟨rfl, c4_header_verbatim [] [⟨[], false⟩] [] [] [] 1 "Hello, World!" none [] false
    "<div class=\"article\"><h1>Hello, World!</h1></div>" rfl⟩

/-! ## C2: table-row cell counts (counterexample) -/

/-- C2 counterexample: the row line `|a|b|c|` has three pipe-delimited
cells, but the stored row (and hence the rendered row) has five cells —
`["", "a", "b", "c", ""]`, one leading and one trailing empty cell — not
the N + 1 = 4 the claim states. -/
theorem c2_counterexample :
    orgLex "table.org" "|a|b|c|" = .ok [⟨.table [["", "a", "b", "c", ""]], ⟨"table.org", 1⟩⟩]
    ∧ parseAndRender "|a|b|c|" "table.org" =
        .ok "<div class=\"article\"><table><thead></thead><tbody><tr><td></td><td>a</td><td>b</td><td>c</td><td></td></tr></tbody></table></div>"
    ∧ (["", "a", "b", "c", ""] : List String).length ≠ 3 + 1 :=
  ⟨rfl, rfl, by decide⟩

/-! ## C4: heading rendering (counterexample to the escaping half) -/

/-- C4 counterexample: the heading title is inserted into the header
element verbatim, not HTML-escaped: the document parsed from `"* a<b"`
renders with a raw `<h1>a<b</h1>`, which differs from the escaped form. -/
theorem c4_counterexample :
    parseAndRender "* a<b" "x.org" = .ok "<div class=\"article\"><h1>a<b</h1></div>"
    ∧ ("<div class=\"article\"><h1>a<b</h1></div>" : String) ≠
        "<div class=\"article\"><h1>a&lt;b</h1></div>" :=
  ⟨rfl, by decide⟩

/-! ## Helper lemmas about splitting and the single-line lexer runs -/

theorem splitChar_append_sep (sep : Char) (xs ys : List Char) (h : sep ∉ xs) :
    splitChar sep (xs ++ sep :: ys) = xs :: splitChar sep ys := by
  induction xs with
  | nil => simp [splitChar]
  | cons c cs ih =>
    have hc : c ≠ sep := fun hh => h (hh ▸ List.mem_cons_self c cs)
    have hcs : sep ∉ cs := fun hh => h (List.mem_cons_of_mem c hh)
    simp only [List.cons_append, splitChar, if_neg hc, List.append_eq]
    rw [ih hcs]

theorem splitChar_no_sep (sep : Char) (xs : List Char) (h : sep ∉ xs) :
    splitChar sep xs = [xs] := by
  induction xs with
  | nil => rfl
  | cons c cs ih =>
    have hc : c ≠ sep := fun hh => h (hh ▸ List.mem_cons_self c cs)
    have hcs : sep ∉ cs := fun hh => h (List.mem_cons_of_mem c hh)
    simp only [splitChar, if_neg hc, ih hcs]

theorem mkData (s : String) : String.mk s.data = s := rfl

/-- Splitting a two-line string on the newline. -/
theorem rsSplitLines_two (a b : String) (ha : ('\n' : Char) ∉ a.data)
    (hb : ('\n' : Char) ∉ b.data) :
    rsSplitLines (a ++ "\n" ++ b) = [a, b] := by
  unfold rsSplitLines sSplitChar
  have hdata : (a ++ "\n" ++ b).data = a.data ++ '\n' :: b.data := by
    simp [String.data_append]
  rw [hdata, splitChar_append_sep _ _ _ ha, splitChar_no_sep _ _ hb]
  simp [mkData]

/-- A one-line input. -/
theorem rsSplitLines_one (a : String) (ha : ('\n' : Char) ∉ a.data) :
    rsSplitLines a = [a] := by
  unfold rsSplitLines sSplitChar
  rw [splitChar_no_sep _ _ ha]
  simp [mkData]

/-- The paragraph branch of `Lexer::handle_normal` on a lexer that has not
yet emitted any token. -/
theorem handleNormal_fresh_para (lx : Lexer) (A : String)
    (hA : ParagraphLine A) (htok : lx.tokens = []) :
    handleNormal lx A = .ok (lx, some ⟨.paragraph (rsTrimLeft A), lx.currentLocation⟩) := by
  obtain ⟨h1, h2, h3, h4, h5, h6, h7⟩ := hA
  unfold handleNormal
  rw [if_neg h1, h2, htok]
  simp only [lastPlanningOrHeading, List.getLast?_nil, if_false, Bool.false_eq_true, h3, h4,
    h5, h6, h7, Lexer.wrap]

/-- The paragraph-merge branch of `Lexer::handle_normal` when the last
emitted token is a paragraph. -/
theorem handleNormal_merge_para (lx : Lexer) (B c : String) (loc : Location)
    (hB : ParagraphLine B) (htok : lx.tokens.getLast? = some ⟨.paragraph c, loc⟩) :
    handleNormal lx B =
      .ok ({ lx with tokens := updateLast lx.tokens ⟨.paragraph (mergePara c B), loc⟩ }, none) := by
  obtain ⟨h1, h2, h3, h4, h5, h6, h7⟩ := hB
  have hlp : lastPlanningOrHeading lx.tokens = false := by
    unfold lastPlanningOrHeading
    rw [htok]
  unfold handleNormal
  rw [if_neg h1, h2, hlp]
  simp only [if_false, Bool.false_eq_true, h3, h4, h5, h6, h7, htok]

/-- The new-table branch of `Lexer::handle_normal` on a lexer that has not
yet emitted any token. -/
theorem handleNormal_fresh_table (lx : Lexer) (L : String)
    (hblank : rsTrim L ≠ "") (hhead : headingMatch L = none)
    (hdraw : drawerMatch L = none) (hblock : blockMatch L = none)
    (hcom : commentMatch L = none) (hkey : keywordMatch L = none)
    (htab : tableRowMatch L = true) (htok : lx.tokens = []) :
    handleNormal lx L = .ok (lx, some ⟨.table [rowOf L], lx.currentLocation⟩) := by
  unfold handleNormal
  rw [if_neg hblank, hhead, htok]
  simp only [lastPlanningOrHeading, List.getLast?_nil, if_false, Bool.false_eq_true, hdraw,
    hblock, hcom, hkey, htab, if_true, Lexer.wrap]

/-- Unfolding one line of the lexer loop. -/
theorem lexSteps_cons (lx lx2 : Lexer) (line : String) (rest : List String)
    (h : lexLine lx line = .ok lx2) :
    lexSteps lx (line :: rest) = lexSteps lx2 rest := by
  show (match lexLine lx line with
        | RunResult.ok l2 => lexSteps l2 rest
        | RunResult.err m => RunResult.err m
        | RunResult.panic m => RunResult.panic m) = lexSteps lx2 rest
  rw [h]

/-! ## C6 (amended): the paragraph merge law -/

/-- C6 amended: for two consecutive newline-free lines A and B that both
classify as paragraph text, the lexer produces exactly one `Paragraph`
token; if B is unindented its text is A with surrounding whitespace
trimmed, a newline, then B verbatim; if B is indented it is trimmed A, one
space, then B with its leading whitespace stripped. -/
theorem c6_paragraph_merge (f A B : String)
    (hA : ParagraphLine A) (hB : ParagraphLine B)
    (hnA : ('\n' : Char) ∉ A.data) (hnB : ('\n' : Char) ∉ B.data) :
    orgLex f (A ++ "\n" ++ B) =
      .ok [⟨.paragraph (if 0 < indentOf B then rsTrim A ++ " " ++ rsTrimLeft B
                        else rsTrim A ++ "\n" ++ B), ⟨f, 1⟩⟩] := by
  unfold orgLex
  rw [rsSplitLines_two A B hnA hnB]
  have s1 : lexLine (Lexer.new f) A =
      .ok ⟨⟨f, 2⟩, false, .default, [⟨.paragraph (rsTrimLeft A), ⟨f, 1⟩⟩]⟩ := by
    unfold lexLine handleLine
    rw [handleNormal_fresh_para (Lexer.new f) A hA rfl]
    rfl
  have s2 : lexLine ⟨⟨f, 2⟩, false, .default, [⟨.paragraph (rsTrimLeft A), ⟨f, 1⟩⟩]⟩ B =
      .ok ⟨⟨f, 3⟩, false, .default, [⟨.paragraph (mergePara (rsTrimLeft A) B), ⟨f, 1⟩⟩]⟩ := by
    unfold lexLine handleLine
    rw [handleNormal_merge_para ⟨⟨f, 2⟩, false, .default, [⟨.paragraph (rsTrimLeft A), ⟨f, 1⟩⟩]⟩
      B (rsTrimLeft A) ⟨f, 1⟩ hB (by rfl)]
    rfl
  rw [lexSteps_cons _ _ _ _ s1, lexSteps_cons _ _ _ _ s2]
  rfl

/-- C6 amended, witness: `"aa\nbb"` merges into the single paragraph
`"aa\nbb"`. -/
theorem c6_paragraph_merge_witness :
    orgLex "w.org" ("aa" ++ "\n" ++ "bb") =
      .ok [⟨.paragraph (if 0 < indentOf "bb" then rsTrim "aa" ++ " " ++ rsTrimLeft "bb"
                        else rsTrim "aa" ++ "\n" ++ "bb"), ⟨"w.org", 1⟩⟩] :=
  c6_paragraph_merge "w.org" "aa" "bb" (by decide) (by decide) (by decide) (by decide)

/-! ## C6: paragraph merge (counterexample to the verbatim-A half) -/

/-- C6 counterexample: with A = `"x "` (a paragraph line with trailing
whitespace) and B = `"y"`, the merged paragraph text is `"x\ny"`, not
A ++ newline ++ B = `"x \ny"`: the accumulated text is right-trimmed before
the newline is appended. -/
theorem c6_counterexample :
    orgLex "p.org" "x \ny" = .ok [⟨.paragraph "x\ny", ⟨"p.org", 1⟩⟩]
    ∧ ("x\ny" : String) ≠ "x " ++ "\n" ++ "y" :=
  ⟨rfl, by decide⟩

/-! ## Helper lemmas for the table-row shape -/

theorem mapMkData (cells : List String) : (cells.map String.data).map String.mk = cells := by
  induction cells with
  | nil => rfl
  | cons c cs ih => simp [ih, mkData]

theorem pipeJoin_data_cons2 (s s2 : String) (r2 : List String) :
    (pipeJoin (s :: s2 :: r2)).data = s.data ++ '|' :: (pipeJoin (s2 :: r2)).data := by
  simp [pipeJoin, String.data_append]

/-- No character of the joined cells equals `c` when `c` is not `'|'` and
occurs in no cell. -/
theorem pipeJoin_chars (cells : List String) (c : Char)
    (h : ∀ s ∈ cells, c ∉ s.data) (hc : c ≠ '|') : c ∉ (pipeJoin cells).data := by
  induction cells with
  | nil => simp [pipeJoin]
  | cons s rest ih =>
    cases rest with
    | nil => simpa [pipeJoin] using h s (by simp)
    | cons s2 r2 =>
      rw [pipeJoin_data_cons2]
      intro hmem
      rcases List.mem_append.mp hmem with hmem | hmem
      · exact h s (by simp) hmem
      · rcases List.mem_cons.mp hmem with hmem | hmem
        · exact hc hmem
        · exact ih (fun x hx => h x (by simp [hx])) hmem

theorem rowLine_data (cells : List String) :
    (rowLine cells).data = '|' :: ((pipeJoin cells).data ++ ['|']) := by
  simp [rowLine, String.data_append]

theorem splitChar_pipeJoin (cells : List String) (hne : cells ≠ [])
    (h : ∀ s ∈ cells, ('|' : Char) ∉ s.data) :
    splitChar '|' ((pipeJoin cells).data ++ ['|']) = cells.map String.data ++ [[]] := by
  induction cells with
  | nil => exact absurd rfl hne
  | cons s rest ih =>
    cases rest with
    | nil =>
      have hs := h s (by simp)
      rw [show pipeJoin [s] = s from rfl, splitChar_append_sep '|' s.data [] hs]
      rfl
    | cons s2 r2 =>
      have hs := h s (by simp)
      have hrest : ∀ x ∈ s2 :: r2, ('|' : Char) ∉ x.data := fun x hx => h x (by simp [hx])
      rw [pipeJoin_data_cons2, List.append_assoc, List.cons_append,
        splitChar_append_sep '|' s.data _ hs, ih (by simp) hrest]
      rfl

/-- A string whose first and last characters are not whitespace is left
unchanged by `str::trim`. -/
theorem rsTrim_keep (l : List Char) (c d : Char) (hc : isWs c = false) (hd : isWs d = false) :
    rsTrim (String.mk (c :: (l ++ [d]))) = String.mk (c :: (l ++ [d])) := by
  unfold rsTrim rsTrimRight rsTrimLeft
  simp only [List.dropWhile_cons, hc, if_false, Bool.false_eq_true, List.reverse_cons,
    List.reverse_append, List.reverse_cons, List.reverse_nil, List.nil_append,
    List.singleton_append, List.cons_append, List.append_assoc]
  simp [hd, List.dropWhile_cons]

theorem rsTrim_rowLine (cells : List String) : rsTrim (rowLine cells) = rowLine cells := by
  have h1 : rowLine cells = String.mk ('|' :: ((pipeJoin cells).data ++ ['|'])) := by
    rw [← rowLine_data, mkData]
  rw [h1]
  exact rsTrim_keep _ '|' '|' rfl rfl

theorem rowLine_ne_blank (cells : List String) : rsTrim (rowLine cells) ≠ "" := by
  rw [rsTrim_rowLine]
  intro hcon
  have := congrArg String.data hcon
  rw [rowLine_data] at this
  cases this

/-- Lines beginning with `'|'` are rejected by the drawer, block, comment
and keyword classifiers (each requires leading whitespace or `#`). -/
theorem drawerMatch_pipe (r : List Char) : drawerMatch (String.mk ('|' :: r)) = none := rfl

theorem blockMatch_pipe (r : List Char) : blockMatch (String.mk ('|' :: r)) = none := rfl

theorem commentMatch_pipe (r : List Char) : commentMatch (String.mk ('|' :: r)) = none := rfl

theorem keywordMatch_pipe (r : List Char) : keywordMatch (String.mk ('|' :: r)) = none := rfl

theorem tableRowMatch_rowLine (cells : List String)
    (hnl : ∀ s ∈ cells, ('\n' : Char) ∉ s.data) :
    tableRowMatch (rowLine cells) = true := by
  unfold tableRowMatch
  rw [rowLine_data]
  cases hJ : (pipeJoin cells).data with
  | nil => rfl
  | cons j js =>
    have hjn : j ≠ '\n' := by
      intro hcon
      have := pipeJoin_chars cells '\n' hnl (by decide)
      rw [hJ, hcon] at this
      exact this (List.mem_cons_self _ _)
    simp only [List.cons_append]
    simp [notNl, hjn]

theorem mkNil : String.mk [] = "" := rfl

theorem rsTrimEmpty : rsTrim "" = "" := rfl

theorem rowOf_rowLine (cells : List String) (hne : cells ≠ [])
    (hpipe : ∀ s ∈ cells, ('|' : Char) ∉ s.data) :
    rowOf (rowLine cells) = [""] ++ cells.map rsTrim ++ [""] := by
  unfold rowOf sSplitChar
  rw [rsTrim_rowLine, rowLine_data]
  have h1 : splitChar '|' ('|' :: ((pipeJoin cells).data ++ ['|'])) =
      [] :: splitChar '|' ((pipeJoin cells).data ++ ['|']) := by
    simp [splitChar]
  rw [h1, splitChar_pipeJoin cells hne hpipe]
  simp [mapMkData, mkNil, rsTrimEmpty]



/-! ## C2 (amended): table-row cell counts -/

/-- C2 amended: a table-row source line `|c1|...|cN|` with N pipe-delimited
cells (the cells containing no `|` and no newline, and the line not
matching the heading regex) is lexed into one `Table` token whose single
stored row has N + 2 cells — one leading and one trailing empty cell from
splitting the line on `|`, around the N trimmed cells — and the renderer
emits one table cell per stored cell. -/
theorem c2_table_row_cells (f : String) (cells : List String)
    (hne : cells ≠ [])
    (hpipe : ∀ s ∈ cells, ('|' : Char) ∉ s.data)
    (hnl : ∀ s ∈ cells, ('\n' : Char) ∉ s.data)
    (hhead : headingMatch (rowLine cells) = none) :
    orgLex f (rowLine cells) = .ok [⟨.table [[""] ++ cells.map rsTrim ++ [""]], ⟨f, 1⟩⟩]
    ∧ ([""] ++ cells.map rsTrim ++ [""]).length = cells.length + 2 := by
  have hform : rowLine cells = String.mk ('|' :: ((pipeJoin cells).data ++ ['|'])) := by
    rw [← rowLine_data, mkData]
  constructor
  · unfold orgLex
    have hJ := pipeJoin_chars cells '\n' hnl (by decide)
    have hnlLine : ('\n' : Char) ∉ (rowLine cells).data := by
      rw [rowLine_data]
      intro hmem
      simp only [List.mem_cons, List.mem_append, List.mem_singleton] at hmem
      rcases hmem with h1 | h2 | h3
      · exact absurd h1 (by decide)
      · exact hJ h2
      · exact absurd h3 (by decide)
    rw [rsSplitLines_one _ hnlLine]
    have s1 : lexLine (Lexer.new f) (rowLine cells) =
        .ok ⟨⟨f, 2⟩, false, .default, [⟨.table [rowOf (rowLine cells)], ⟨f, 1⟩⟩]⟩ := by
      unfold lexLine handleLine
      rw [handleNormal_fresh_table (Lexer.new f) (rowLine cells) (rowLine_ne_blank cells) hhead
        (by rw [hform]; exact drawerMatch_pipe _)
        (by rw [hform]; exact blockMatch_pipe _)
        (by rw [hform]; exact commentMatch_pipe _)
        (by rw [hform]; exact keywordMatch_pipe _)
        (tableRowMatch_rowLine cells hnl) rfl]
      rfl
    rw [lexSteps_cons _ _ _ _ s1, rowOf_rowLine cells hne hpipe]
    rfl
  · simp

/-- C2 amended, witness: at cells `["a", "b", "c"]` the stored row is
`["", "a", "b", "c", ""]`, with 5 = 3 + 2 cells. -/
theorem c2_table_row_cells_witness :
    orgLex "wit.org" (rowLine ["a", "b", "c"]) =
      .ok [⟨.table [[""] ++ (["a", "b", "c"] : List String).map rsTrim ++ [""]], ⟨"wit.org", 1⟩⟩]
    ∧ ([""] ++ (["a", "b", "c"] : List String).map rsTrim ++ [""]).length
        = (["a", "b", "c"] : List String).length + 2 :=
  c2_table_row_cells "wit.org" ["a", "b", "c"] (by decide) (by decide) (by decide) (by decide)

end Impertio
